import Mathlib

/-!
Verification development for the Lviv outage dashboard.

The source is a JavaScript application.  Raw status values coming from the
remote JSON are JS values that may be `undefined`/`null`; we embed such a
value as `Option String`, with `none` standing for an absent value and the
empty string standing for the remaining falsy string.  Times on the daily
timeline are exact multiples of one half (JS numbers used only at halves),
embedded as `ℚ`.
-/

namespace Outage

/-- `STATUS_ORDER` from `utils/outage`. -/
def STATUS_ORDER : List String := ["yes", "maybe", "no"]

/-- `normalizeStatusKey` from `utils/outage`: falsy input yields `"maybe"`;
members of `STATUS_ORDER` and the transitional keys pass through; anything
else yields `"maybe"`. -/
def normalizeStatusKey (statusKey : Option String) : String :=
  match statusKey with
  | none => "maybe"
  | some s =>
    if s = "" then "maybe"
    else if STATUS_ORDER.contains s then s
    else if s = "first" ∨ s = "second" then s
    else "maybe"

/-- `expandHourToHalves`: split an hour-level status into the two half-hour
statuses covering that hour. -/
def expandHourToHalves (hourStatusKey : Option String) : String × String :=
  let k := normalizeStatusKey hourStatusKey
  if k = "first" then ("no", "yes")
  else if k = "second" then ("yes", "no")
  else if k = "yes" then ("yes", "yes")
  else if k = "no" then ("no", "no")
  else if k = "maybe" then ("maybe", "maybe")
  else ("maybe", "maybe")

/-- `isOutageKey`: hour-level outage classification. -/
def isOutageKey (statusKey : Option String) : Bool :=
  let k := normalizeStatusKey statusKey
  decide (k = "no") || decide (k = "first") || decide (k = "second")

/-- `statusToLevel`: ordinal plotting level. -/
def statusToLevel (statusKey : Option String) : ℕ :=
  let k := normalizeStatusKey statusKey
  if k = "yes" then 2
  else if k = "maybe" then 1
  else if k = "no" then 0
  else 1

/-- `isNoAtHour`: exact-`no` classification (used after half-hour expansion). -/
def isNoAtHour (statusKey : Option String) : Bool :=
  decide (normalizeStatusKey statusKey = "no")

/-- `isMaybeKey`. -/
def isMaybeKey (statusKey : Option String) : Bool :=
  decide (normalizeStatusKey statusKey = "maybe")

/-- `pad2`: `String(v).padStart(2, '0')`. -/
def pad2 (v : ℤ) : String :=
  let s := toString v
  if s.length ≤ 1 then "0" ++ s else s

/-- `formatHalfHour`: format a half-hour coordinate as `HH:MM`. -/
def formatHalfHour (t : ℚ) : String :=
  let hour := ⌊t⌋
  let minutes : ℤ := if t - ⌊t⌋ = 1 / 2 then 30 else 0
  pad2 hour ++ ":" ++ pad2 minutes

/-- `formatHalfRange`: format the half-hour slot starting at `startT`. -/
def formatHalfRange (startT : ℚ) : String :=
  let endT := startT + 1 / 2
  formatHalfHour startT ++ "-" ++ formatHalfHour endT

/-- Format a numeric interval the way both interval extractors do. -/
def formatInterval (ab : ℚ × ℚ) : String :=
  formatHalfHour ab.1 ++ "-" ++ formatHalfHour ab.2

/-- One point of the 48-point half-hour chart timeline (a `chartData` row). -/
structure Row where
  t : ℚ
  rangeLabel : String
  homeKey : String
  medicKey : String
  reserveKey : String
  home : ℕ
  medic : ℕ
  reserve : ℕ
  overlapNo : Bool
deriving DecidableEq, Repr, Inhabited

/-- The scan loop shared by `getNoIntervalsFromRows` and
`getBoolIntervalsFromRows`: walk the rows carrying the optional start time of
the currently open interval (`startT` in the source), closing at a
false point's `t` and at `24` when still open after the last row. -/
def intervalLoop (p : Row → Bool) : List Row → Option ℚ → List (ℚ × ℚ)
  | [], none => []
  | [], some s => [(s, 24)]
  | r :: rs, none =>
    if p r then intervalLoop p rs (some r.t) else intervalLoop p rs none
  | r :: rs, some s =>
    if p r then intervalLoop p rs (some s)
    else (s, r.t) :: intervalLoop p rs none

/-- Numeric core of `getNoIntervalsFromRows` (before `HH:MM-HH:MM` formatting):
scan with predicate `isNoAtHour (pickKey r)` and keep only intervals of
strictly positive duration. -/
def getNoIntervalsCore (rows : List Row) (pickKey : Row → String) : List (ℚ × ℚ) :=
  (intervalLoop (fun r => isNoAtHour (some (pickKey r))) rows none).filter
    (fun ab => decide (ab.1 < ab.2))

/-- `getNoIntervalsFromRows`: formatted outage intervals for one group key. -/
def getNoIntervalsFromRows (rows : List Row) (pickKey : Row → String) : List String :=
  (getNoIntervalsCore rows pickKey).map formatInterval

/-- Numeric core of `getBoolIntervalsFromRows`. -/
def getBoolIntervalsCore (rows : List Row) (pickBool : Row → Bool) : List (ℚ × ℚ) :=
  (intervalLoop pickBool rows none).filter (fun ab => decide (ab.1 < ab.2))

/-- `getBoolIntervalsFromRows`: formatted intervals of a boolean signal. -/
def getBoolIntervalsFromRows (rows : List Row) (pickBool : Row → Bool) : List String :=
  (getBoolIntervalsCore rows pickBool).map formatInterval

/-- Modelled from the spec (§4.2 `extractIntervals`), for comparison with the
implementation: open an interval at the `t` of the first point where the
predicate holds, close it at the `t` of the first subsequent point where the
predicate no longer holds (half-open), or at the end boundary `24` when no
such point exists, then continue after the closing point. -/
def noIntervalsSpecAux (p : Row → Bool) (rows : List Row) : List (ℚ × ℚ) :=
  match h1 : rows.dropWhile (fun r => !p r) with
  | [] => []
  | r :: rs =>
    match h2 : rs.dropWhile p with
    | [] => [(r.t, 24)]
    | r2 :: rs2 => (r.t, r2.t) :: noIntervalsSpecAux p (r2 :: rs2)
termination_by rows.length
decreasing_by
  have hA : (rows.dropWhile (fun r => !p r)).length ≤ rows.length :=
    (List.dropWhile_sublist _).length_le
  have hB : (rs.dropWhile p).length ≤ rs.length :=
    (List.dropWhile_sublist _).length_le
  rw [h1] at hA
  rw [h2] at hB
  simp only [List.length_cons] at hA hB ⊢
  omega

/-- One group's raw hourly schedule: hour index (`"1"`..`"24"` in the JSON)
to raw status value; `none` is a missing hour key. -/
def GroupSched := ℕ → Option String

/-- One day's data: group key to that group's schedule; `none` is a missing
group. -/
def Today := String → Option GroupSched

/-- The `fact` block of the remote payload. -/
structure FactInfo where
  today : Option String
  data : String → Option Today

/-- The remote snapshot (only the parts the derivation core reads). -/
structure Snapshot where
  fact : Option FactInfo

/-- `group?.[String(hourIndex)]` on a possibly missing group. -/
def hourStatus (group : Option GroupSched) (hourIndex : ℕ) : Option String :=
  match group with
  | none => none
  | some g => g hourIndex

/-- `getTodayTimestamp`: `data?.fact?.today`. -/
def getTodayTimestamp (data : Option Snapshot) : Option String :=
  (data.bind Snapshot.fact).bind FactInfo.today

/-- `getTodayData`: `null` when the today pointer is missing or falsy,
otherwise `data?.fact?.data?.[String(ts)] ?? null`. -/
def getTodayData (data : Option Snapshot) : Option Today :=
  match getTodayTimestamp data with
  | none => none
  | some ts =>
    if ts = "" then none
    else
      match data.bind Snapshot.fact with
      | none => none
      | some f => f.data ts

/-- The three configured groups' keys (`GROUPS` in the app). -/
def homeGroupKey : String := "GPV1.1"

/-- Medical group key. -/
def medicGroupKey : String := "GPV2.1"

/-- Reserve group key. -/
def reserveGroupKey : String := "GPV5.1"

/-- The two rows `chartData` pushes for one hour slot `i` (1-based). -/
def chartRowsForHour (home medic reserve : Option GroupSched) (i : ℕ) : List Row :=
  let baseT : ℚ := (i : ℚ) - 1
  let homeAB := expandHourToHalves (hourStatus home i)
  let medicAB := expandHourToHalves (hourStatus medic i)
  let reserveAB := expandHourToHalves (hourStatus reserve i)
  let t1 := baseT
  let t2 := baseT + 1 / 2
  let overlap1 := isNoAtHour (some medicAB.1) && isNoAtHour (some reserveAB.1)
  let overlap2 := isNoAtHour (some medicAB.2) && isNoAtHour (some reserveAB.2)
  [ { t := t1, rangeLabel := formatHalfRange t1,
      homeKey := homeAB.1, medicKey := medicAB.1, reserveKey := reserveAB.1,
      home := statusToLevel (some homeAB.1), medic := statusToLevel (some medicAB.1),
      reserve := statusToLevel (some reserveAB.1), overlapNo := overlap1 },
    { t := t2, rangeLabel := formatHalfRange t2,
      homeKey := homeAB.2, medicKey := medicAB.2, reserveKey := reserveAB.2,
      home := statusToLevel (some homeAB.2), medic := statusToLevel (some medicAB.2),
      reserve := statusToLevel (some reserveAB.2), overlapNo := overlap2 } ]

/-- `chartData`: the 48-point half-hour timeline (empty without today data). -/
def chartData (todayOpt : Option Today) : List Row :=
  match todayOpt with
  | none => []
  | some today =>
    let home := today homeGroupKey
    let medic := today medicGroupKey
    let reserve := today reserveGroupKey
    (List.range' 1 24).flatMap (chartRowsForHour home medic reserve)

/-- `groupHasOutages` read at one group key: scan hour slots 1..24 and report
whether any expanded half classifies as an outage.  The source materialises
this as a record over the three `GROUPS` keys (all `false` when there is no
today data); this is the per-key value of that record. -/
def groupHasOutages (todayOpt : Option Today) (groupKey : String) : Bool :=
  match todayOpt with
  | none => false
  | some today =>
    let group := today groupKey
    (List.range' 1 24).any fun hourIndex =>
      let ab := expandHourToHalves (hourStatus group hourIndex)
      isOutageKey (some ab.1) || isOutageKey (some ab.2)

/-- The four interval lists shown under the chart. -/
structure OutageLines where
  home : List String
  medic : List String
  reserve : List String
  overlap : List String
deriving DecidableEq, Repr

/-- `outageLines`: empty lists without chart rows, otherwise the three
per-group `no` interval lists and the overlap interval list. -/
def outageLines (rows : List Row) : OutageLines :=
  if rows.isEmpty then ⟨[], [], [], []⟩
  else
    { home := getNoIntervalsFromRows rows (fun r => r.homeKey)
      medic := getNoIntervalsFromRows rows (fun r => r.medicKey)
      reserve := getNoIntervalsFromRows rows (fun r => r.reserveKey)
      overlap := getBoolIntervalsFromRows rows (fun r => r.overlapNo) }

/-- Whether any of the tracked signals differs between two adjacent rows
(the three comparisons of the `transitionTicks` loop body). -/
def trackedChange (prev curr : Row) : Bool :=
  decide (prev.medicKey ≠ curr.medicKey) ||
    decide (prev.reserveKey ≠ curr.reserveKey) ||
    decide (prev.overlapNo ≠ curr.overlapNo)

/-- The `t` coordinates added by the `transitionTicks` loop. -/
def changeTimes (rows : List Row) : List ℚ :=
  ((rows.zip rows.tail).filter fun pc => trackedChange pc.1 pc.2).map fun pc => pc.2.t

/-- `transitionTicks`: the set `{0, 24}` plus the `t` of every row whose
tracked signals differ from the previous row, sorted ascending. -/
def transitionTicks (rows : List Row) : List ℚ :=
  if rows.isEmpty then [0, 24]
  else (insert (0 : ℚ) (insert 24 (changeTimes rows).toFinset)).sort (· ≤ ·)

/-- Rows are in strictly ascending `t` order. -/
def RowsSorted (rows : List Row) : Prop :=
  List.Pairwise (fun a b => a.t < b.t) rows

instance : DecidablePred RowsSorted := fun rows =>
  inferInstanceAs (Decidable (List.Pairwise _ rows))

theorem intervalLoop_starts (p : Row → Bool) :
    ∀ (rows : List Row) (s : Option ℚ), ∀ ab ∈ intervalLoop p rows s,
      (∃ a, s = some a ∧ ab.1 = a) ∨ ∃ x ∈ rows, p x = true ∧ ab.1 = x.t := by
  intro rows
  induction rows with
  | nil =>
    intro s ab hab
    cases s with
    | none => simp [intervalLoop] at hab
    | some a =>
      simp only [intervalLoop, List.mem_singleton] at hab
      exact Or.inl ⟨a, rfl, by rw [hab]⟩
  | cons r rs ih =>
    intro s ab hab
    cases s with
    | none =>
      by_cases hp : p r
      · rw [intervalLoop, if_pos hp] at hab
        rcases ih (some r.t) ab hab with ⟨a, ha, h1⟩ | ⟨x, hx, hpx, h1⟩
        · exact Or.inr ⟨r, List.mem_cons_self .., hp, by injection ha with ha'; rw [h1, ha']⟩
        · exact Or.inr ⟨x, List.mem_cons_of_mem _ hx, hpx, h1⟩
      · rw [intervalLoop, if_neg hp] at hab
        rcases ih none ab hab with ⟨a, ha, _⟩ | ⟨x, hx, hpx, h1⟩
        · exact absurd ha (by simp)
        · exact Or.inr ⟨x, List.mem_cons_of_mem _ hx, hpx, h1⟩
    | some a =>
      by_cases hp : p r
      · rw [intervalLoop, if_pos hp] at hab
        rcases ih (some a) ab hab with ⟨b, hb, h1⟩ | ⟨x, hx, hpx, h1⟩
        · exact Or.inl ⟨b, hb, h1⟩
        · exact Or.inr ⟨x, List.mem_cons_of_mem _ hx, hpx, h1⟩
      · rw [intervalLoop, if_neg hp] at hab
        rcases List.mem_cons.mp hab with h1 | h1
        · exact Or.inl ⟨a, rfl, by rw [h1]⟩
        · rcases ih none ab h1 with ⟨b, hb, _⟩ | ⟨x, hx, hpx, h2⟩
          · exact absurd hb (by simp)
          · exact Or.inr ⟨x, List.mem_cons_of_mem _ hx, hpx, h2⟩

theorem intervalLoop_pairwise (p : Row → Bool) :
    ∀ (rows : List Row), RowsSorted rows → ∀ (s : Option ℚ),
      List.Pairwise (fun I J => I.2 < J.1) (intervalLoop p rows s) := by
  intro rows
  induction rows with
  | nil =>
    intro _ s
    cases s with
    | none => simp [intervalLoop]
    | some a => simp [intervalLoop]
  | cons r rs ih =>
    intro hsort s
    have hsort' : RowsSorted rs := (List.pairwise_cons.mp hsort).2
    have hlt : ∀ x ∈ rs, r.t < x.t := (List.pairwise_cons.mp hsort).1
    cases s with
    | none =>
      by_cases hp : p r
      · rw [intervalLoop, if_pos hp]
        exact ih hsort' (some r.t)
      · rw [intervalLoop, if_neg hp]
        exact ih hsort' none
    | some a =>
      by_cases hp : p r
      · rw [intervalLoop, if_pos hp]
        exact ih hsort' (some a)
      · rw [intervalLoop, if_neg hp]
        refine List.pairwise_cons.mpr ⟨?_, ih hsort' none⟩
        intro J hJ
        rcases intervalLoop_starts p rs none J hJ with ⟨b, hb, _⟩ | ⟨x, hx, _, h1⟩
        · exact absurd hb (by simp)
        · rw [h1]
          exact hlt x hx

theorem intervalLoop_pos (p : Row → Bool) :
    ∀ (rows : List Row), RowsSorted rows → (∀ x ∈ rows, x.t < 24) →
      ∀ (s : Option ℚ), (∀ a, s = some a → (∀ x ∈ rows, a < x.t) ∧ a < 24) →
        ∀ ab ∈ intervalLoop p rows s, ab.1 < ab.2 := by
  intro rows
  induction rows with
  | nil =>
    intro _ _ s hs ab hab
    cases s with
    | none => simp [intervalLoop] at hab
    | some a =>
      simp only [intervalLoop, List.mem_singleton] at hab
      rw [hab]
      exact (hs a rfl).2
  | cons r rs ih =>
    intro hsort h24 s hs ab hab
    have hsort' : RowsSorted rs := (List.pairwise_cons.mp hsort).2
    have hlt : ∀ x ∈ rs, r.t < x.t := (List.pairwise_cons.mp hsort).1
    have h24' : ∀ x ∈ rs, x.t < 24 := fun x hx => h24 x (List.mem_cons_of_mem _ hx)
    cases s with
    | none =>
      by_cases hp : p r
      · rw [intervalLoop, if_pos hp] at hab
        exact ih hsort' h24' (some r.t)
          (fun a ha => by
            injection ha with ha'
            exact ⟨fun x hx => ha' ▸ hlt x hx, ha' ▸ h24 r (List.mem_cons_self ..)⟩)
          ab hab
      · rw [intervalLoop, if_neg hp] at hab
        exact ih hsort' h24' none (by simp) ab hab
    | some a =>
      have ha := hs a rfl
      by_cases hp : p r
      · rw [intervalLoop, if_pos hp] at hab
        exact ih hsort' h24' (some a)
          (fun b hb => by
            injection hb with hb'
            exact ⟨fun x hx => hb' ▸ (ha.1 x (List.mem_cons_of_mem _ hx)), hb' ▸ ha.2⟩)
          ab hab
      · rw [intervalLoop, if_neg hp] at hab
        rcases List.mem_cons.mp hab with h1 | h1
        · rw [h1]
          exact ha.1 r (List.mem_cons_self ..)
        · exact ih hsort' h24' none (by simp) ab h1

theorem dropWhile_head_false {α : Type} {q : α → Bool} :
    ∀ (l : List α) (r : α) (rs : List α), l.dropWhile q = r :: rs → q r = false := by
  intro l
  induction l with
  | nil => simp [List.dropWhile]
  | cons x xs ih =>
    intro r rs h
    rw [List.dropWhile_cons] at h
    by_cases hq : q x
    · rw [if_pos hq] at h
      exact ih r rs h
    · rw [if_neg hq] at h
      injection h with h1 _
      rw [← h1]
      exact Bool.not_eq_true _ ▸ hq

theorem intervalLoop_skip_false (p : Row → Bool) :
    ∀ (rows : List Row),
      intervalLoop p rows none = intervalLoop p (rows.dropWhile (fun r => !p r)) none := by
  intro rows
  induction rows with
  | nil => rfl
  | cons r rs ih =>
    by_cases hp : p r
    · rw [List.dropWhile_cons, if_neg (by simp [hp])]
    · rw [intervalLoop, if_neg hp, List.dropWhile_cons, if_pos (by simp [hp])]
      exact ih

theorem intervalLoop_some_eq (p : Row → Bool) :
    ∀ (rs : List Row) (a : ℚ),
      intervalLoop p rs (some a) =
        match rs.dropWhile p with
        | [] => [(a, 24)]
        | r2 :: rs2 => (a, r2.t) :: intervalLoop p (r2 :: rs2) none := by
  intro rs
  induction rs with
  | nil => intro a; rfl
  | cons x xs ih =>
    intro a
    by_cases hp : p x
    · rw [intervalLoop, if_pos hp, List.dropWhile_cons, if_pos hp]
      exact ih a
    · rw [intervalLoop, if_neg hp, List.dropWhile_cons, if_neg hp]
      show _ = (a, x.t) :: intervalLoop p (x :: xs) none
      rw [intervalLoop, if_neg hp]

theorem noIntervalsSpecAux_nil (p : Row → Bool) (rows : List Row)
    (h : rows.dropWhile (fun r => !p r) = []) : noIntervalsSpecAux p rows = [] := by
  rw [noIntervalsSpecAux, h]

theorem noIntervalsSpecAux_last (p : Row → Bool) (rows : List Row) (r : Row) (rs : List Row)
    (h1 : rows.dropWhile (fun r => !p r) = r :: rs) (h2 : rs.dropWhile p = []) :
    noIntervalsSpecAux p rows = [(r.t, 24)] := by
  rw [noIntervalsSpecAux]
  split
  · rename_i heq
    rw [h1] at heq
    cases heq
  · rename_i r' rs' heq
    rw [h1] at heq
    injection heq with e1 e2
    subst e1
    subst e2
    split
    · rfl
    · rename_i r2 rs2 heq2
      rw [h2] at heq2
      cases heq2

theorem noIntervalsSpecAux_cons (p : Row → Bool) (rows : List Row) (r : Row) (rs : List Row)
    (r2 : Row) (rs2 : List Row)
    (h1 : rows.dropWhile (fun r => !p r) = r :: rs) (h2 : rs.dropWhile p = r2 :: rs2) :
    noIntervalsSpecAux p rows = (r.t, r2.t) :: noIntervalsSpecAux p (r2 :: rs2) := by
  rw [noIntervalsSpecAux]
  split
  · rename_i heq
    rw [h1] at heq
    cases heq
  · rename_i r' rs' heq
    rw [h1] at heq
    injection heq with e1 e2
    subst e1
    subst e2
    split
    · rename_i heq2
      rw [h2] at heq2
      cases heq2
    · rename_i r2' rs2' heq2
      rw [h2] at heq2
      injection heq2 with e3 e4
      subst e3
      subst e4
      rfl

/-- The implementation's scan loop computes exactly the spec-level interval
list (before the positive-duration filter), with no ordering hypothesis. -/
theorem intervalLoop_eq_spec (p : Row → Bool) :
    ∀ (n : ℕ) (rows : List Row), rows.length ≤ n →
      intervalLoop p rows none = noIntervalsSpecAux p rows := by
  intro n
  induction n with
  | zero =>
    intro rows h
    have : rows = [] := List.length_eq_zero.mp (Nat.le_zero.mp h)
    subst this
    rw [noIntervalsSpecAux_nil p [] rfl]
    rfl
  | succ n ih =>
    intro rows h
    rcases hd : rows.dropWhile (fun r => !p r) with _ | ⟨r, rs⟩
    · rw [noIntervalsSpecAux_nil p rows hd, intervalLoop_skip_false, hd]
      rfl
    · have hp : p r = true := by
        have := dropWhile_head_false rows r rs hd
        simpa using this
      have hlen : rs.length + 1 ≤ rows.length := by
        have := (List.dropWhile_sublist (l := rows) (fun r => !p r)).length_le
        rw [hd] at this
        simpa using this
      rw [intervalLoop_skip_false, hd, intervalLoop, if_pos hp, intervalLoop_some_eq]
      rcases h2 : rs.dropWhile p with _ | ⟨r2, rs2⟩
      · rw [noIntervalsSpecAux_last p rows r rs hd h2]
      · rw [noIntervalsSpecAux_cons p rows r rs r2 rs2 hd h2]
        have hlen2 : (r2 :: rs2).length ≤ n := by
          have := (List.dropWhile_sublist (l := rs) p).length_le
          rw [h2] at this
          simp only [List.length_cons] at this ⊢
          omega
        show (r.t, r2.t) :: intervalLoop p (r2 :: rs2) none = _
        rw [ih (r2 :: rs2) hlen2]

theorem intervalLoop_cov_true (p : Row → Bool) :
    ∀ (rows : List Row), RowsSorted rows → ∀ (s : Option ℚ),
      ∀ ab ∈ intervalLoop p rows s, ∀ r ∈ rows, ab.1 ≤ r.t → r.t < ab.2 → p r = true := by
  intro rows
  induction rows with
  | nil => intro _ s ab _ r hr; cases hr
  | cons r rs ih =>
    intro hsort s ab hab x hx hab1 hab2
    have hsort' : RowsSorted rs := (List.pairwise_cons.mp hsort).2
    have hlt : ∀ y ∈ rs, r.t < y.t := (List.pairwise_cons.mp hsort).1
    cases s with
    | none =>
      by_cases hp : p r
      · rw [intervalLoop, if_pos hp] at hab
        rcases List.mem_cons.mp hx with hx1 | hx1
        · rw [hx1]; exact hp
        · exact ih hsort' (some r.t) ab hab x hx1 hab1 hab2
      · rw [intervalLoop, if_neg hp] at hab
        rcases List.mem_cons.mp hx with hx1 | hx1
        · rcases intervalLoop_starts p rs none ab hab with ⟨b, hb, _⟩ | ⟨y, hy, _, h1⟩
          · exact absurd hb (by simp)
          · rw [hx1] at hab1 hab2
            have := hlt y hy
            rw [h1] at hab1
            linarith
        · exact ih hsort' none ab hab x hx1 hab1 hab2
    | some a =>
      by_cases hp : p r
      · rw [intervalLoop, if_pos hp] at hab
        rcases List.mem_cons.mp hx with hx1 | hx1
        · rw [hx1]; exact hp
        · exact ih hsort' (some a) ab hab x hx1 hab1 hab2
      · rw [intervalLoop, if_neg hp] at hab
        rcases List.mem_cons.mp hab with h1 | h1
        · rcases List.mem_cons.mp hx with hx1 | hx1
          · rw [hx1] at hab2
            rw [h1] at hab2
            simp at hab2
          · have := hlt x hx1
            rw [h1] at hab2
            simp at hab2
            linarith
        · rcases List.mem_cons.mp hx with hx1 | hx1
          · rcases intervalLoop_starts p rs none ab h1 with ⟨b, hb, _⟩ | ⟨y, hy, _, he⟩
            · exact absurd hb (by simp)
            · rw [hx1] at hab1
              have := hlt y hy
              rw [he] at hab1
              linarith
          · exact ih hsort' none ab h1 x hx1 hab1 hab2

theorem intervalLoop_some_cover (p : Row → Bool) :
    ∀ (rows : List Row) (a u : ℚ), (∀ x ∈ rows, p x = false → u < x.t) → a ≤ u → u < 24 →
      ∃ ab ∈ intervalLoop p rows (some a), ab.1 ≤ u ∧ u < ab.2 := by
  intro rows
  induction rows with
  | nil =>
    intro a u _ hau hu24
    exact ⟨(a, 24), List.mem_singleton.mpr rfl, hau, hu24⟩
  | cons x xs ih =>
    intro a u hcov hau hu24
    by_cases hp : p x
    · rw [intervalLoop, if_pos hp]
      exact ih a u (fun y hy => hcov y (List.mem_cons_of_mem _ hy)) hau hu24
    · rw [intervalLoop, if_neg hp]
      refine ⟨(a, x.t), List.mem_cons_self .., hau, ?_⟩
      exact hcov x (List.mem_cons_self ..) (Bool.not_eq_true _ ▸ hp)

theorem intervalLoop_cov_false (p : Row → Bool) :
    ∀ (rows : List Row), RowsSorted rows → (∀ x ∈ rows, x.t < 24) →
      ∀ (s : Option ℚ), (∀ a, s = some a → ∀ x ∈ rows, a < x.t) →
        ∀ r ∈ rows, p r = true →
          ∃ ab ∈ intervalLoop p rows s, ab.1 ≤ r.t ∧ r.t < ab.2 := by
  intro rows
  induction rows with
  | nil => intro _ _ s _ r hr; cases hr
  | cons r rs ih =>
    intro hsort h24 s hs x hx hpx
    have hsort' : RowsSorted rs := (List.pairwise_cons.mp hsort).2
    have hlt : ∀ y ∈ rs, r.t < y.t := (List.pairwise_cons.mp hsort).1
    have h24' : ∀ y ∈ rs, y.t < 24 := fun y hy => h24 y (List.mem_cons_of_mem _ hy)
    cases s with
    | none =>
      by_cases hp : p r
      · rw [intervalLoop, if_pos hp]
        rcases List.mem_cons.mp hx with hx1 | hx1
        · subst hx1
          exact intervalLoop_some_cover p rs x.t x.t
            (fun y hy _ => hlt y hy) le_rfl (h24 x (List.mem_cons_self ..))
        · exact ih hsort' h24' (some r.t)
            (fun a ha => by injection ha with ha'; exact fun y hy => ha' ▸ hlt y hy)
            x hx1 hpx
      · rw [intervalLoop, if_neg hp]
        rcases List.mem_cons.mp hx with hx1 | hx1
        · rw [hx1] at hpx
          exact absurd hpx (by simp [hp])
        · exact ih hsort' h24' none (by simp) x hx1 hpx
    | some a =>
      have ha : ∀ y ∈ r :: rs, a < y.t := hs a rfl
      by_cases hp : p r
      · rw [intervalLoop, if_pos hp]
        rcases List.mem_cons.mp hx with hx1 | hx1
        · subst hx1
          exact intervalLoop_some_cover p rs a x.t
            (fun y hy _ => hlt y hy) (le_of_lt (ha x (List.mem_cons_self ..)))
            (h24 x (List.mem_cons_self ..))
        · exact ih hsort' h24' (some a)
            (fun b hb => by
              injection hb with hb'
              exact fun y hy => hb' ▸ ha y (List.mem_cons_of_mem _ hy))
            x hx1 hpx
      · rw [intervalLoop, if_neg hp]
        rcases List.mem_cons.mp hx with hx1 | hx1
        · rw [hx1] at hpx
          exact absurd hpx (by simp [hp])
        · obtain ⟨ab, hab, h1, h2⟩ := ih hsort' h24' none (by simp) x hx1 hpx
          exact ⟨ab, List.mem_cons_of_mem _ hab, h1, h2⟩

/-- The scan loop only looks at the predicate's value on the rows. -/
theorem intervalLoop_congr (p q : Row → Bool) :
    ∀ (rows : List Row), (∀ r ∈ rows, p r = q r) → ∀ (s : Option ℚ),
      intervalLoop p rows s = intervalLoop q rows s := by
  intro rows
  induction rows with
  | nil => intro _ s; cases s with
    | none => rfl
    | some a => rfl
  | cons r rs ih =>
    intro hpq s
    have hr : p r = q r := hpq r (List.mem_cons_self ..)
    have hrs : ∀ x ∈ rs, p x = q x := fun x hx => hpq x (List.mem_cons_of_mem _ hx)
    cases s with
    | none =>
      by_cases hp : p r
      · rw [intervalLoop, if_pos hp, intervalLoop, if_pos (hr ▸ hp)]
        exact ih hrs (some r.t)
      · rw [intervalLoop, if_neg hp, intervalLoop, if_neg (hr ▸ hp)]
        exact ih hrs none
    | some a =>
      by_cases hp : p r
      · rw [intervalLoop, if_pos hp, intervalLoop, if_pos (hr ▸ hp)]
        exact ih hrs (some a)
      · rw [intervalLoop, if_neg hp, intervalLoop, if_neg (hr ▸ hp)]
        rw [ih hrs none]

theorem chartRowsForHour_t (home medic reserve : Option GroupSched) (i : ℕ) :
    ∀ r ∈ chartRowsForHour home medic reserve i,
      r.t = (i : ℚ) - 1 ∨ r.t = (i : ℚ) - 1 + 1 / 2 := by
  intro r hr
  rcases List.mem_cons.mp hr with h | h
  · exact Or.inl (by rw [h])
  · rcases List.mem_cons.mp h with h1 | h1
    · exact Or.inr (by rw [h1])
    · cases h1

theorem chartData_sorted (today : Today) : RowsSorted (chartData (some today)) := by
  unfold RowsSorted chartData
  refine List.pairwise_flatMap.mpr ⟨?_, ?_⟩
  · intro i _
    refine List.pairwise_cons.mpr ⟨?_, List.pairwise_singleton _ _⟩
    intro b hb
    rcases List.mem_singleton.mp hb with h
    rw [h]
    show (i : ℚ) - 1 < (i : ℚ) - 1 + 1 / 2
    norm_num
  · refine (List.pairwise_lt_range' 1 24).imp_of_mem ?_
    intro i j _ _ hij x hx y hy
    have hij' : (i : ℚ) + 1 ≤ (j : ℚ) := by exact_mod_cast Nat.succ_le_of_lt hij
    rcases chartRowsForHour_t _ _ _ i x hx with h1 | h1 <;>
      rcases chartRowsForHour_t _ _ _ j y hy with h2 | h2 <;>
        rw [h1, h2] <;> linarith

theorem chartData_t_lt (today : Today) : ∀ r ∈ chartData (some today), r.t < 24 := by
  intro r hr
  unfold chartData at hr
  obtain ⟨i, hi, hri⟩ := List.mem_flatMap.mp hr
  have hi' : 1 ≤ i ∧ i < 25 := List.mem_range'_1.mp hi
  have hi24 : (i : ℚ) ≤ 24 := by exact_mod_cast Nat.lt_succ_iff.mp hi'.2
  rcases chartRowsForHour_t _ _ _ i r hri with h | h <;> rw [h] <;> linarith

theorem contains_order (s : String) :
    (STATUS_ORDER.contains s = true) ↔ (s = "yes" ∨ s = "maybe" ∨ s = "no") := by
  simp [STATUS_ORDER, List.contains]

theorem normalize_mem5 (raw : Option String) :
    normalizeStatusKey raw ∈ ["yes", "no", "maybe", "first", "second"] := by
  rcases raw with _ | s
  · simp [normalizeStatusKey]
  · simp only [normalizeStatusKey]
    split_ifs with h1 h2 h3
    · simp
    · rcases (contains_order s).mp h2 with h | h | h <;> simp [h]
    · rcases h3 with h | h <;> simp [h]
    · simp

theorem normalize_unrecognized (s : String)
    (h : s ∉ ["yes", "no", "maybe", "first", "second"]) :
    normalizeStatusKey (some s) = "maybe" := by
  simp only [List.mem_cons, List.not_mem_nil, or_false] at h
  push_neg at h
  simp only [normalizeStatusKey]
  split_ifs with h1 h2 h3
  · rfl
  · exfalso
    rcases (contains_order s).mp h2 with h4 | h4 | h4 <;> simp_all
  · exfalso
    rcases h3 with h4 | h4 <;> simp_all
  · rfl

theorem normalize_on3 (s : String) (h : s ∈ ["yes", "no", "maybe"]) :
    normalizeStatusKey (some s) = s := by
  simp only [List.mem_cons, List.not_mem_nil, or_false] at h
  simp only [normalizeStatusKey]
  split_ifs with h1 h2 h3
  · rcases h with h | h | h <;> simp_all
  · rfl
  · rfl
  · exfalso
    exact h2 ((contains_order s).mpr (by tauto))

theorem expand_halves_mem (raw : Option String) :
    (expandHourToHalves raw).1 ∈ ["yes", "no", "maybe"] ∧
      (expandHourToHalves raw).2 ∈ ["yes", "no", "maybe"] := by
  simp only [expandHourToHalves]
  split_ifs <;> simp

/-- C2: `expandHourToHalves` realises exactly the transition table keyed on
the normalized status, and both produced halves are in
`{yes, no, maybe}` (the transitional keys never survive expansion). -/
theorem c2_expand_table (raw : Option String) :
    expandHourToHalves raw =
      (if normalizeStatusKey raw = "first" then ("no", "yes")
       else if normalizeStatusKey raw = "second" then ("yes", "no")
       else if normalizeStatusKey raw = "yes" then ("yes", "yes")
       else if normalizeStatusKey raw = "no" then ("no", "no")
       else ("maybe", "maybe")) ∧
    (expandHourToHalves raw).1 ∈ ["yes", "no", "maybe"] ∧
    (expandHourToHalves raw).2 ∈ ["yes", "no", "maybe"] ∧
    (expandHourToHalves raw).1 ≠ "first" ∧ (expandHourToHalves raw).1 ≠ "second" ∧
    (expandHourToHalves raw).2 ≠ "first" ∧ (expandHourToHalves raw).2 ≠ "second" := by
  refine ⟨?_, (expand_halves_mem raw).1, (expand_halves_mem raw).2, ?_, ?_, ?_, ?_⟩
  · simp only [expandHourToHalves]
    split_ifs <;> rfl
  all_goals
    simp only [expandHourToHalves]
    split_ifs <;> simp

/-- C2 witness: the transitional key `"first"` expands to `("no", "yes")`. -/
theorem c2_witness : expandHourToHalves (some "first") = ("no", "yes") := by
  rw [(c2_expand_table (some "first")).1]
  decide

/-- C7: normalization is total with range the five canonical keys; absent
input and any unrecognized string normalize to `"maybe"`. -/
theorem c7_normalize_total (raw : Option String) :
    normalizeStatusKey raw ∈ ["yes", "no", "maybe", "first", "second"] ∧
    (raw = none → normalizeStatusKey raw = "maybe") ∧
    (∀ s, raw = some s → s ∉ ["yes", "no", "maybe", "first", "second"] →
      normalizeStatusKey raw = "maybe") := by
  refine ⟨normalize_mem5 raw, ?_, ?_⟩
  · intro h
    subst h
    rfl
  · intro s hs hmem
    subst hs
    exact normalize_unrecognized s hmem

/-- C7 witness: an unrecognized raw value normalizes to `"maybe"`. -/
theorem c7_witness :
    ("unknown-status" ∉ ["yes", "no", "maybe", "first", "second"]) ∧
      normalizeStatusKey (some "unknown-status") = "maybe" :=
  ⟨by decide, (c7_normalize_total (some "unknown-status")).2.2 "unknown-status" rfl (by decide)⟩

theorem loop_filter_id (p : Row → Bool) (rows : List Row) (hsort : RowsSorted rows)
    (hlt : ∀ x ∈ rows, x.t < 24) :
    (intervalLoop p rows none).filter (fun ab => decide (ab.1 < ab.2)) =
      intervalLoop p rows none :=
  List.filter_eq_self.mpr fun ab hab =>
    decide_eq_true (intervalLoop_pos p rows hsort hlt none (by simp) ab hab)

/-- A row list for concrete interval-extraction checks. -/
def sampleRow (t : ℚ) (k : String) (b : Bool) : Row :=
  { t := t, rangeLabel := "", homeKey := k, medicKey := k, reserveKey := k,
    home := 0, medic := 0, reserve := 0, overlapNo := b }

/-- C1: for rows in ascending `t` order (with `t < 24`), both interval
extractors compute exactly the spec-level scan — open at the first point
where the predicate becomes true, close at the first subsequent point where
it no longer holds (half-open), close a still-open interval at `24` — and
every emitted interval has strictly positive duration. -/
theorem c1_extraction_refines_spec (rows : List Row) (pickKey : Row → String)
    (pickBool : Row → Bool) (hsort : RowsSorted rows) (hlt : ∀ x ∈ rows, x.t < 24) :
    getNoIntervalsCore rows pickKey =
        noIntervalsSpecAux (fun r => isNoAtHour (some (pickKey r))) rows ∧
    getBoolIntervalsCore rows pickBool = noIntervalsSpecAux pickBool rows ∧
    getNoIntervalsFromRows rows pickKey =
        (noIntervalsSpecAux (fun r => isNoAtHour (some (pickKey r))) rows).map formatInterval ∧
    getBoolIntervalsFromRows rows pickBool =
        (noIntervalsSpecAux pickBool rows).map formatInterval ∧
    (∀ ab ∈ getNoIntervalsCore rows pickKey, ab.1 < ab.2) ∧
    (∀ ab ∈ getBoolIntervalsCore rows pickBool, ab.1 < ab.2) := by
  have h1 : getNoIntervalsCore rows pickKey =
      noIntervalsSpecAux (fun r => isNoAtHour (some (pickKey r))) rows := by
    rw [getNoIntervalsCore, loop_filter_id _ rows hsort hlt,
      intervalLoop_eq_spec _ rows.length rows le_rfl]
  have h2 : getBoolIntervalsCore rows pickBool = noIntervalsSpecAux pickBool rows := by
    rw [getBoolIntervalsCore, loop_filter_id _ rows hsort hlt,
      intervalLoop_eq_spec _ rows.length rows le_rfl]
  refine ⟨h1, h2, ?_, ?_, ?_, ?_⟩
  · rw [getNoIntervalsFromRows, h1]
  · rw [getBoolIntervalsFromRows, h2]
  · intro ab hab
    exact of_decide_eq_true (List.mem_filter.mp hab).2
  · intro ab hab
    exact of_decide_eq_true (List.mem_filter.mp hab).2

/-- C1 witness at a concrete three-row timeline. -/
theorem c1_witness :
    RowsSorted [sampleRow 0 "no" true, sampleRow (1 / 2) "yes" false, sampleRow 1 "no" true] ∧
    (∀ x ∈ [sampleRow 0 "no" true, sampleRow (1 / 2) "yes" false, sampleRow 1 "no" true],
      x.t < 24) ∧
    getNoIntervalsCore
        [sampleRow 0 "no" true, sampleRow (1 / 2) "yes" false, sampleRow 1 "no" true]
        (fun r => r.medicKey) =
      noIntervalsSpecAux (fun r => isNoAtHour (some r.medicKey))
        [sampleRow 0 "no" true, sampleRow (1 / 2) "yes" false, sampleRow 1 "no" true] := by
  have hs : RowsSorted
      [sampleRow 0 "no" true, sampleRow (1 / 2) "yes" false, sampleRow 1 "no" true] := by
    simp only [RowsSorted, sampleRow, List.pairwise_cons, List.mem_cons, List.not_mem_nil]
    norm_num
  have hl : ∀ x ∈ [sampleRow 0 "no" true, sampleRow (1 / 2) "yes" false, sampleRow 1 "no" true],
      x.t < 24 := by
    simp only [sampleRow, List.mem_cons, List.not_mem_nil]
    intro x hx
    rcases hx with h | h | h | h <;> first
      | (subst h; norm_num)
      | cases h
  exact ⟨hs, hl,
    (c1_extraction_refines_spec _ (fun r => r.medicKey) (fun r => r.overlapNo) hs hl).1⟩

/-- C6: extracted interval lists (per-group `no` intervals and boolean
overlap intervals) contain only intervals with `start < end`, and are
strictly separated in order (`I.end < J.start` for each adjacent pair), hence
sorted, pairwise disjoint, and unmergeable (maximal). -/
theorem c6_intervals_wellformed (rows : List Row) (pickKey : Row → String)
    (pickBool : Row → Bool) (hsort : RowsSorted rows) :
    (∀ ab ∈ getNoIntervalsCore rows pickKey, ab.1 < ab.2) ∧
    (∀ ab ∈ getBoolIntervalsCore rows pickBool, ab.1 < ab.2) ∧
    List.Pairwise (fun I J => I.2 < J.1) (getNoIntervalsCore rows pickKey) ∧
    List.Pairwise (fun I J => I.2 < J.1) (getBoolIntervalsCore rows pickBool) := by
  refine ⟨?_, ?_, ?_, ?_⟩
  · intro ab hab
    exact of_decide_eq_true (List.mem_filter.mp hab).2
  · intro ab hab
    exact of_decide_eq_true (List.mem_filter.mp hab).2
  · exact (intervalLoop_pairwise _ rows hsort none).filter _
  · exact (intervalLoop_pairwise _ rows hsort none).filter _

/-- C6 witness at a concrete two-row timeline. -/
theorem c6_witness :
    RowsSorted [sampleRow 2 "no" false, sampleRow 3 "maybe" true] ∧
    List.Pairwise (fun I J => I.2 < J.1)
      (getNoIntervalsCore [sampleRow 2 "no" false, sampleRow 3 "maybe" true]
        (fun r => r.reserveKey)) := by
  have hs : RowsSorted [sampleRow 2 "no" false, sampleRow 3 "maybe" true] := by
    simp only [RowsSorted, sampleRow, List.pairwise_cons, List.mem_cons, List.not_mem_nil]
    norm_num
  exact ⟨hs,
    (c6_intervals_wellformed _ (fun r => r.reserveKey) (fun r => r.overlapNo) hs).2.2.1⟩

/-- A point of the timeline is covered by an extracted interval iff the
predicate holds there. -/
theorem core_cov_iff (p : Row → Bool) (rows : List Row) (hsort : RowsSorted rows)
    (hlt : ∀ x ∈ rows, x.t < 24) (r : Row) (hr : r ∈ rows) :
    p r = true ↔ ∃ ab ∈ getBoolIntervalsCore rows p, ab.1 ≤ r.t ∧ r.t < ab.2 := by
  constructor
  · intro hp
    obtain ⟨ab, hab, h1, h2⟩ :=
      intervalLoop_cov_false p rows hsort hlt none (by simp) r hr hp
    exact ⟨ab, List.mem_filter.mpr ⟨hab, decide_eq_true (lt_of_le_of_lt h1 h2)⟩, h1, h2⟩
  · rintro ⟨ab, hab, h1, h2⟩
    exact intervalLoop_cov_true p rows hsort none ab (List.mem_filter.mp hab).1 r hr h1 h2

/-- C8: flattening an extracted interval list back into a point predicate
("true exactly at the covered half-hour points") and extracting again returns
the same interval list, numerically and after formatting. -/
theorem c8_roundtrip_flatten (today : Today) (p : Row → Bool) :
    getBoolIntervalsCore (chartData (some today))
        (fun r => (getBoolIntervalsCore (chartData (some today)) p).any
          (fun ab => decide (ab.1 ≤ r.t) && decide (r.t < ab.2))) =
      getBoolIntervalsCore (chartData (some today)) p ∧
    getBoolIntervalsFromRows (chartData (some today))
        (fun r => (getBoolIntervalsCore (chartData (some today)) p).any
          (fun ab => decide (ab.1 ≤ r.t) && decide (r.t < ab.2))) =
      getBoolIntervalsFromRows (chartData (some today)) p := by
  have hsort := chartData_sorted today
  have hlt := chartData_t_lt today
  have hql : ∀ r ∈ chartData (some today),
      (getBoolIntervalsCore (chartData (some today)) p).any
          (fun ab => decide (ab.1 ≤ r.t) && decide (r.t < ab.2)) = p r := by
    intro r hr
    cases hp : p r with
    | true =>
      obtain ⟨ab, hab, h1, h2⟩ :=
        (core_cov_iff p (chartData (some today)) hsort hlt r hr).mp hp
      exact List.any_eq_true.mpr
        ⟨ab, hab, by rw [Bool.and_eq_true, decide_eq_true_eq, decide_eq_true_eq]; exact ⟨h1, h2⟩⟩
    | false =>
      cases hq : (getBoolIntervalsCore (chartData (some today)) p).any
          (fun ab => decide (ab.1 ≤ r.t) && decide (r.t < ab.2)) with
      | false => rfl
      | true =>
        exfalso
        obtain ⟨ab, hab, hf⟩ := List.any_eq_true.mp hq
        rw [Bool.and_eq_true, decide_eq_true_eq, decide_eq_true_eq] at hf
        have := (core_cov_iff p (chartData (some today)) hsort hlt r hr).mpr
          ⟨ab, hab, hf.1, hf.2⟩
        rw [hp] at this
        cases this
  have hcore : getBoolIntervalsCore (chartData (some today))
      (fun r => (getBoolIntervalsCore (chartData (some today)) p).any
        (fun ab => decide (ab.1 ≤ r.t) && decide (r.t < ab.2))) =
      getBoolIntervalsCore (chartData (some today)) p := by
    have hloop := intervalLoop_congr _ p (chartData (some today)) hql none
    show (intervalLoop _ (chartData (some today)) none).filter (fun ab => decide (ab.1 < ab.2)) =
      (intervalLoop p (chartData (some today)) none).filter (fun ab => decide (ab.1 < ab.2))
    rw [hloop]
  exact ⟨hcore, by rw [getBoolIntervalsFromRows, getBoolIntervalsFromRows, hcore]⟩

theorem isNoAtHour_on3 (x : String) (h : x ∈ ["yes", "no", "maybe"]) :
    isNoAtHour (some x) = true ↔ x = "no" := by
  rw [isNoAtHour, decide_eq_true_eq, normalize_on3 x h]

theorem chartData_row_fields (today : Today) (r : Row) (hr : r ∈ chartData (some today)) :
    r.medicKey ∈ ["yes", "no", "maybe"] ∧ r.reserveKey ∈ ["yes", "no", "maybe"] ∧
      r.overlapNo = (isNoAtHour (some r.medicKey) && isNoAtHour (some r.reserveKey)) := by
  obtain ⟨i, _, hri⟩ := List.mem_flatMap.mp hr
  simp only [chartRowsForHour, List.mem_cons, List.not_mem_nil, or_false] at hri
  rcases hri with h | h
  · subst h
    exact ⟨(expand_halves_mem _).1, (expand_halves_mem _).1, rfl⟩
  · subst h
    exact ⟨(expand_halves_mem _).2, (expand_halves_mem _).2, rfl⟩

/-- C3: on the built timeline, a row's `overlapNo` is true exactly when both
the medical and the reserve half-hour statuses are `"no"`; when that fails at
a row, no extracted overlap interval covers that row's half-hour slot. -/
theorem c3_overlap_iff (today : Today) (r : Row) (hr : r ∈ chartData (some today)) :
    (r.overlapNo = true ↔ (r.medicKey = "no" ∧ r.reserveKey = "no")) ∧
    (¬(r.medicKey = "no" ∧ r.reserveKey = "no") →
      ∀ ab ∈ getBoolIntervalsCore (chartData (some today)) (fun x => x.overlapNo),
        ¬(ab.1 ≤ r.t ∧ r.t < ab.2)) := by
  obtain ⟨hm, hres, hov⟩ := chartData_row_fields today r hr
  have hiff : r.overlapNo = true ↔ (r.medicKey = "no" ∧ r.reserveKey = "no") := by
    rw [hov, Bool.and_eq_true, isNoAtHour_on3 _ hm, isNoAtHour_on3 _ hres]
  refine ⟨hiff, ?_⟩
  rintro hno ab hab ⟨h1, h2⟩
  have hcov : (fun x => x.overlapNo) r = true :=
    intervalLoop_cov_true _ _ (chartData_sorted today) none ab
      (List.mem_filter.mp hab).1 r hr h1 h2
  exact hno (hiff.mp hcov)

/-- C3 witness: the first half-hour row of an empty schedule. -/
theorem c3_witness :
    (chartRowsForHour none none none 1).headI.overlapNo = true ↔
      ((chartRowsForHour none none none 1).headI.medicKey = "no" ∧
        (chartRowsForHour none none none 1).headI.reserveKey = "no") := by
  have hr : (chartRowsForHour none none none 1).headI ∈
      chartData (some (fun _ => none)) := by
    show _ ∈ (List.range' 1 24).flatMap _
    refine List.mem_flatMap.mpr ⟨1, by decide, ?_⟩
    exact List.mem_cons_self ..
  exact (c3_overlap_iff (fun _ => none) _ hr).1

theorem isOutage_expand (k : Option String) :
    (isOutageKey (some (expandHourToHalves k).1) ||
      isOutageKey (some (expandHourToHalves k).2)) = isOutageKey k := by
  have h5 := normalize_mem5 k
  simp only [List.mem_cons, List.not_mem_nil, or_false] at h5
  rcases h5 with h | h | h | h | h <;> simp only [expandHourToHalves, isOutageKey, h] <;> decide

/-- C4: `groupHasOutages` is true exactly when some hour slot 1..24 of the
group classifies as an hour-level outage, equivalently when either expanded
half of some hour is an outage; a group absent from the snapshot reports
`false`. -/
theorem c4_group_has_outage (td : Option Today) (gk : String) :
    (groupHasOutages td gk = true ↔
      ∃ today, td = some today ∧ ∃ i, 1 ≤ i ∧ i ≤ 24 ∧
        isOutageKey (hourStatus (today gk) i) = true) ∧
    (groupHasOutages td gk = true ↔
      ∃ today, td = some today ∧ ∃ i, 1 ≤ i ∧ i ≤ 24 ∧
        (isOutageKey (some (expandHourToHalves (hourStatus (today gk) i)).1) ||
          isOutageKey (some (expandHourToHalves (hourStatus (today gk) i)).2)) = true) ∧
    (∀ today, td = some today → today gk = none → groupHasOutages td gk = false) := by
  rcases td with _ | today
  · refine ⟨?_, ?_, ?_⟩
    · simp [groupHasOutages]
    · simp [groupHasOutages]
    · intro _ h
      cases h
  · have hany : groupHasOutages (some today) gk = true ↔
        ∃ i ∈ List.range' 1 24,
          (isOutageKey (some (expandHourToHalves (hourStatus (today gk) i)).1) ||
            isOutageKey (some (expandHourToHalves (hourStatus (today gk) i)).2)) = true := by
      simp only [groupHasOutages]
      exact List.any_eq_true
    have hB : groupHasOutages (some today) gk = true ↔
        ∃ i, 1 ≤ i ∧ i ≤ 24 ∧
          (isOutageKey (some (expandHourToHalves (hourStatus (today gk) i)).1) ||
            isOutageKey (some (expandHourToHalves (hourStatus (today gk) i)).2)) = true := by
      rw [hany]
      constructor
      · rintro ⟨i, hi, hp⟩
        obtain ⟨hi1, hi2⟩ := List.mem_range'_1.mp hi
        exact ⟨i, hi1, by omega, hp⟩
      · rintro ⟨i, hi1, hi2, hp⟩
        exact ⟨i, List.mem_range'_1.mpr ⟨hi1, by omega⟩, hp⟩
    refine ⟨?_, ?_, ?_⟩
    · rw [hB]
      simp only [isOutage_expand]
      constructor
      · rintro ⟨i, hi1, hi2, hp⟩
        exact ⟨today, rfl, i, hi1, hi2, hp⟩
      · rintro ⟨today', heq, i, hi1, hi2, hp⟩
        injection heq with heq'
        subst heq'
        exact ⟨i, hi1, hi2, hp⟩
    · rw [hB]
      constructor
      · rintro ⟨i, hi1, hi2, hp⟩
        exact ⟨today, rfl, i, hi1, hi2, hp⟩
      · rintro ⟨today', heq, i, hi1, hi2, hp⟩
        injection heq with heq'
        subst heq'
        exact ⟨i, hi1, hi2, hp⟩
    · intro today' heq hnone
      injection heq with heq'
      subst heq'
      simp only [groupHasOutages]
      rw [List.any_eq_false]
      intro i _
      simp only [hnone, hourStatus]
      decide

/-- C4 witness: a group entirely missing from the snapshot reports `false`. -/
theorem c4_witness : groupHasOutages (some (fun _ => none)) medicGroupKey = false :=
  (c4_group_has_outage (some (fun _ => none)) medicGroupKey).2.2 (fun _ => none) rfl rfl

/-- C5: the transition-tick list is sorted ascending, always contains `0`
and `24`, and contains the `t` of exactly those points whose tracked signals
(medic key, reserve key, overlap flag) differ from the previous point — and
nothing else. -/
theorem c5_transition_ticks (rows : List Row) :
    List.Sorted (· < ·) (transitionTicks rows) ∧
    (0 : ℚ) ∈ transitionTicks rows ∧ (24 : ℚ) ∈ transitionTicks rows ∧
    (∀ x : ℚ, x ∈ transitionTicks rows ↔
      (x = 0 ∨ x = 24 ∨
        ∃ pc ∈ rows.zip rows.tail, trackedChange pc.1 pc.2 = true ∧ x = pc.2.t)) := by
  by_cases he : rows.isEmpty
  · have hrows : rows = [] := List.isEmpty_iff.mp he
    rw [transitionTicks, if_pos he]
    subst hrows
    refine ⟨?_, by simp, by simp, ?_⟩
    · refine List.sorted_cons.mpr ⟨?_, List.sorted_singleton _⟩
      intro b hb
      rw [List.mem_singleton.mp hb]
      norm_num
    · intro x
      simp
  · rw [transitionTicks, if_neg he]
    refine ⟨Finset.sort_sorted_lt _, ?_, ?_, ?_⟩
    · rw [Finset.mem_sort]
      simp
    · rw [Finset.mem_sort]
      simp
    · intro x
      rw [Finset.mem_sort]
      simp only [Finset.mem_insert, List.mem_toFinset, changeTimes, List.mem_map,
        List.mem_filter]
      constructor
      · rintro (h | h | ⟨pc, ⟨hpc, htr⟩, hx⟩)
        · exact Or.inl h
        · exact Or.inr (Or.inl h)
        · exact Or.inr (Or.inr ⟨pc, hpc, htr, hx.symm⟩)
      · rintro (h | h | ⟨pc, hpc, htr, hx⟩)
        · exact Or.inl h
        · exact Or.inr (Or.inl h)
        · exact Or.inr (Or.inr ⟨pc, ⟨hpc, htr⟩, hx.symm⟩)

/-- C9: without a usable today pointer, today data is `none`, every group
reports no outages, and all four derived interval lists are empty. -/
theorem c9_no_today (data : Option Snapshot)
    (h : getTodayTimestamp data = none ∨ getTodayTimestamp data = some "") :
    getTodayData data = none ∧
    (∀ gk, groupHasOutages (getTodayData data) gk = false) ∧
    outageLines (chartData (getTodayData data)) = ⟨[], [], [], []⟩ := by
  have hnone : getTodayData data = none := by
    rcases h with h | h
    · rw [getTodayData, h]
    · rw [getTodayData, h]
      simp
  exact ⟨hnone, fun gk => by rw [hnone]; rfl, by rw [hnone]; rfl⟩

/-- C9 witness: a snapshot whose `fact` block is absent. -/
theorem c9_witness :
    (getTodayTimestamp (some ⟨none⟩) = none ∨ getTodayTimestamp (some ⟨none⟩) = some "") ∧
      getTodayData (some ⟨none⟩) = none :=
  ⟨Or.inl rfl, (c9_no_today (some ⟨none⟩) (Or.inl rfl)).1⟩

/-- The components of a chart row that the tick computation reads. -/
def projTick (r : Row) : ℚ × String × String × Bool :=
  (r.t, r.medicKey, r.reserveKey, r.overlapNo)

/-- `changeTimes` on projected components. -/
def changeTimesP (l : List (ℚ × String × String × Bool)) : List ℚ :=
  ((l.zip l.tail).filter fun pc =>
    decide (pc.1.2.1 ≠ pc.2.2.1) || decide (pc.1.2.2.1 ≠ pc.2.2.2.1) ||
      decide (pc.1.2.2.2 ≠ pc.2.2.2.2)).map fun pc => pc.2.1

theorem changeTimes_eq_proj (rows : List Row) :
    changeTimes rows = changeTimesP (rows.map projTick) := by
  unfold changeTimes changeTimesP
  rw [← List.map_tail projTick rows, List.zip_map, List.filter_map, List.map_map]
  rfl

theorem transitionTicks_congr (rows1 rows2 : List Row)
    (h : rows1.map projTick = rows2.map projTick) :
    transitionTicks rows1 = transitionTicks rows2 := by
  have he : rows1.isEmpty = rows2.isEmpty := by
    rcases rows1 with _ | ⟨a, as⟩ <;> rcases rows2 with _ | ⟨b, bs⟩ <;> simp_all
  have hc : changeTimes rows1 = changeTimes rows2 := by
    rw [changeTimes_eq_proj, changeTimes_eq_proj, h]
  rw [transitionTicks, transitionTicks, he, hc]

theorem chartData_projTick_congr (t1 t2 : Today)
    (hm : t1 medicGroupKey = t2 medicGroupKey)
    (hr : t1 reserveGroupKey = t2 reserveGroupKey) :
    (chartData (some t1)).map projTick = (chartData (some t2)).map projTick := by
  simp only [chartData]
  rw [List.map_flatMap, List.map_flatMap, hm, hr]
  rfl

/-- C10: two snapshots that agree on every group other than the home group
(`GPV1.1`) produce identical transition-tick lists. -/
theorem c10_home_noninterference (t1 t2 : Today)
    (h : ∀ k, k ≠ homeGroupKey → t1 k = t2 k) :
    transitionTicks (chartData (some t1)) = transitionTicks (chartData (some t2)) :=
  transitionTicks_congr _ _
    (chartData_projTick_congr t1 t2 (h _ (by decide)) (h _ (by decide)))

/-- C10 witness: changing only the home group's schedule leaves the tick
list unchanged. -/
theorem c10_witness :
    transitionTicks (chartData (some (fun _ => none))) =
      transitionTicks (chartData (some (fun k =>
        if k = homeGroupKey then some (fun _ => some "no") else none))) :=
  c10_home_noninterference _ _ (fun k hk => by simp [hk])

end Outage
